import Mathlib

/-!
# Verification of the Lib-quantum interoperability layer

Shallow embedding of the repository's Python sources:

* `qsharp/clients/iqsharp.py` — the IQ# kernel protocol client
  (`IQSharpClient.execute`, `IQSharpError`, the convenience wrappers);
* `qdk_chemistry/geometry/geometry.py` — the XYZ geometry model
  (`Geometry.from_xyz`, `Geometry.to_xyz`, `Element`, the regex patterns);
* `qdk_chemistry/solvers/openmolcas.py` and `qdk_chemistry/solvers/util.py` —
  the OpenMolcas input-deck formatter (`create_input_deck`,
  `formatted_geometry_str`).

Python strings are embedded as `List Char` in the character-level geometry
parser (where regex scanning matters) and as `String` elsewhere.  A Python
`float` built by `float(<decimal literal>)` is embedded as the decimal
literal's sign/integer-part/fraction-part triple (`PyFloat`); its numeric
value is `PyFloat.toRat` (IEEE-754 rounding of distinct literals to a common
double is not modelled; every claim below compares values arising from
identical literals, where that rounding is the identity on both sides).
-/

namespace LibQuantum

/-! ## Python character classes (ASCII fragments of `\s`, `\d`, `\w`) -/

/-- Python regex `\s` on ASCII: space, tab, newline, carriage return,
form feed, vertical tab. -/
def isPySpace (c : Char) : Bool :=
  c = ' ' || c = '\t' || c = '\n' || c = '\r' || c = '\x0c' || c = '\x0b'

/-- Python regex `\d` on ASCII: a decimal digit. -/
def isPyDigit (c : Char) : Bool :=
  '0' ≤ c && c ≤ '9'

/-- Python regex `\w` on ASCII: letter, digit or underscore. -/
def isPyWord (c : Char) : Bool :=
  isPyDigit c || ('a' ≤ c && c ≤ 'z') || ('A' ≤ c && c ≤ 'Z') || c = '_'

/-- Value of a list of decimal digit characters, most significant first
(models Python `int(...)` on the digits captured by `\d+`). -/
def digitsToNat (l : List Char) : Nat :=
  l.foldl (fun a c => 10 * a + (c.toNat - 48)) 0

/-- Fuelled base-10 printer for `Nat` (the fuel makes it structurally
recursive so that concrete instances reduce in the kernel). -/
def natToDigitsFuel : Nat → Nat → List Char
  | 0, n => [Nat.digitChar n]
  | fuel + 1, n =>
    if n < 10 then [Nat.digitChar n]
    else natToDigitsFuel fuel (n / 10) ++ [Nat.digitChar (n % 10)]

/-- Decimal digit string of a natural number, models Python `str(int)`. -/
def natToDigits (n : Nat) : List Char :=
  natToDigitsFuel n n

/-! ## Geometry data model (`geometry.py`)

`FLOAT_PATTERN = "([+-]?[0-9]*[.][0-9]+)"`,
`XYZ_PATTERN = f"(\w) {FLOAT_PATTERN} {FLOAT_PATTERN} {FLOAT_PATTERN}"`. -/

/-- A Python float built from a decimal literal matched by `FLOAT_PATTERN`:
optional sign, optional integer digits, mandatory fraction digits.
`float("+1.0")` and `float("1.0")` coincide, so only the resulting sign is
recorded. -/
structure PyFloat where
  neg : Bool
  ip : List Char
  fp : List Char
deriving DecidableEq

/-- Numeric value of the decimal literal (models Python float comparison). -/
def PyFloat.toRat (f : PyFloat) : ℚ :=
  (if f.neg then -1 else 1) *
    ((digitsToNat f.ip : ℚ) + (digitsToNat f.fp : ℚ) / (10 : ℚ) ^ f.fp.length)

/-- Well-formedness of a literal produced by the `FLOAT_PATTERN` matcher. -/
def PyFloat.wfB (f : PyFloat) : Bool :=
  f.ip.all isPyDigit && !f.fp.isEmpty && f.fp.all isPyDigit

/-- `Element` dataclass of `geometry.py`: an element name with x, y, z
coordinates. -/
structure Element where
  name : List Char
  x : PyFloat
  y : PyFloat
  z : PyFloat
deriving DecidableEq

/-- An element whose fields could have been produced by one `XYZ_PATTERN`
match: the name is a single `\w` character and the three floats are
well-formed literals. -/
def Element.wfB (e : Element) : Bool :=
  (match e.name with
   | [c] => isPyWord c
   | _ => false) && e.x.wfB && e.y.wfB && e.z.wfB

/-- `Geometry` of `geometry.py`: an ordered list of elements plus an
optional integer charge (`__init__` keyword, defaulting to `None`). -/
structure Geometry where
  elems : List Element
  charge : Option Int
deriving DecidableEq

/-- The `coordinates` property: the (name, x, y, z) tuples in atom order,
coordinates taken at their numeric (Python float) value. -/
def Geometry.coordinates (g : Geometry) : List (List Char × ℚ × ℚ × ℚ) :=
  g.elems.map fun e => (e.name, e.x.toRat, e.y.toRat, e.z.toRat)

/-! ## The `from_xyz` parser

`re.findall(XYZ_PATTERN, xyz)` scans left to right; every alternative-free
piece of the pattern (`[+-]?`, `[0-9]*`, literal characters, `[0-9]+`) is
followed by a piece matching a disjoint character class, so the Python
backtracking matcher is equivalent to the maximal-munch matcher below. -/

/-- Match one literal character. -/
def expectChar (c : Char) (s : List Char) : Option (List Char) :=
  if s.head? = some c then some s.tail else none

/-- Match `[0-9]*[.][0-9]+` (the part of `FLOAT_PATTERN` after the optional
sign), returning the captured literal and the rest of the input. -/
def matchFloatBody (neg : Bool) (s : List Char) : Option (PyFloat × List Char) :=
  if (s.dropWhile isPyDigit).head? = some '.' then
    let s2 := (s.dropWhile isPyDigit).tail
    if s2.takeWhile isPyDigit = [] then none
    else some (⟨neg, s.takeWhile isPyDigit, s2.takeWhile isPyDigit⟩, s2.dropWhile isPyDigit)
  else none

/-- Match `FLOAT_PATTERN = ([+-]?[0-9]*[.][0-9]+)` (on empty input the body
matcher fails, as the pattern requires at least `.` and a digit). -/
def matchFloat (s : List Char) : Option (PyFloat × List Char) :=
  if s.head? = some '+' then matchFloatBody false s.tail
  else if s.head? = some '-' then matchFloatBody true s.tail
  else matchFloatBody false s

/-- Attempt to match `XYZ_PATTERN` at the head of the input; on success
return the `Element` built from the four captured groups (as
`Element.from_tuple` does) and the rest of the input. -/
def matchXYZat (s : List Char) : Option (Element × List Char) := do
  let w ← s.head?
  if isPyWord w then
    let r1 ← expectChar ' ' s.tail
    let (f1, r2) ← matchFloat r1
    let r3 ← expectChar ' ' r2
    let (f2, r4) ← matchFloat r3
    let r5 ← expectChar ' ' r4
    let (f3, r6) ← matchFloat r5
    pure (⟨[w], f1, f2, f3⟩, r6)
  else none

/-- Fuelled scan underlying `re.findall`: try a match at every position,
left to right, non-overlapping. -/
def findallFuel : Nat → List Char → List Element
  | 0, _ => []
  | _ + 1, [] => []
  | fuel + 1, c :: cs =>
    (matchXYZat (c :: cs)).elim (findallFuel fuel cs)
      (fun er => er.1 :: findallFuel fuel er.2)

/-- `re.findall(XYZ_PATTERN, s)`, with each match converted to an
`Element`. -/
def findall (s : List Char) : List Element :=
  findallFuel s.length s

/-- After `\d+`, the pattern `\s*\n` succeeds iff some (possibly empty)
whitespace prefix is followed by a literal newline. -/
def hasWsThenNewline : List Char → Bool
  | [] => false
  | c :: cs => c = '\n' || (isPySpace c && hasWsThenNewline cs)

/-- `re.match("\s*(?P<num_atoms>\d+)\s*\n", xyz)`: the declared atom count,
if the anchored match succeeds. -/
def matchNumAtoms (s : List Char) : Option Nat :=
  let s1 := s.dropWhile isPySpace
  let ds := s1.takeWhile isPyDigit
  let rest := s1.dropWhile isPyDigit
  if ds = [] then none
  else if hasWsThenNewline rest then some (digitsToNat ds) else none

/-- Failure mode of `Geometry.from_xyz`: the `assert` on the atom count
(the spec's `FormatError`). -/
inductive GeomError where
  | formatError
deriving DecidableEq

/-- `Geometry.from_xyz`: return an empty geometry if the text has no
newline; otherwise require the declared atom count to match the number of
`XYZ_PATTERN` matches and build the elements from the captured groups. -/
def from_xyz (xyz : List Char) : Except GeomError Geometry :=
  if '\n' ∈ xyz then
    (matchNumAtoms xyz).elim (.error .formatError) fun n =>
      if (findall xyz).length = n then .ok ⟨findall xyz, none⟩
      else .error .formatError
  else .ok ⟨[], none⟩

/-! ## XYZ printing

`Geometry.to_xyz` delegates to `coordinates_to_xyz` and `Element.to_xyz`
delegates to `element_coords_to_xyz`, both defined in
`qdk_chemistry/geometry/xyz.py`, which is not among the provided sources;
they are modelled from the spec. -/

/-- Decimal rendering of a stored float value (the textual precision the
spec stipulates to be stable across round trips). -/
def printFloat (f : PyFloat) : List Char :=
  (if f.neg then ['-'] else []) ++ f.ip ++ '.' :: f.fp

/-- Modelled from the spec: `element_coords_to_xyz` (in the missing
`qdk_chemistry/geometry/xyz.py`) renders one atom line as
`<element> <x> <y> <z>` (spec §4.2). -/
def elementLine (e : Element) : List Char :=
  e.name ++ ' ' :: printFloat e.x ++ ' ' :: printFloat e.y ++ ' ' :: printFloat e.z

/-- Modelled from the spec: `coordinates_to_xyz` (in the missing
`qdk_chemistry/geometry/xyz.py`) emits the atom count line, the title
line, then one `<element> <x> <y> <z>` line per atom (spec §4.2);
`Geometry.to_xyz` passes `len(self)`, `self.charge`, `self.coordinates`
and the title to it. -/
def to_xyz (g : Geometry) (title : List Char) : List Char :=
  natToDigits g.elems.length ++
    ('\n' :: (title ++ ('\n' :: (g.elems.map fun e => elementLine e ++ ['\n']).flatten)))

/-- `format_geometry` of `geometry.py`: the atom lines joined by the given
separator. -/
def format_geometry (g : Geometry) (line_sep : String) : String :=
  String.intercalate line_sep (g.elems.map fun e => String.mk (elementLine e))

/-! ## The molecule collaborator (rdkit `Mol`, external) -/

/-- External molecule object, abstracted to what the sources read from it:
the atom list of its embedded conformer (`Geometry.from_mol` /
`_mol_to_coordinates`), `GetFormalCharge`, and the electron count
(`num_electrons`). -/
structure Mol where
  elements : List Element
  formalCharge : Int
  numElectrons : Nat
deriving DecidableEq

/-- `num_atoms_from_mol` of `util.py`: `len(mol.GetAtoms())`. -/
def num_atoms_from_mol (mol : Mol) : Nat :=
  mol.elements.length

/-- `format_geometry_from_mol` of `geometry.py`: format the geometry built
from the molecule's conformer. -/
def format_geometry_from_mol (mol : Mol) (line_sep : String) : String :=
  format_geometry ⟨mol.elements, some mol.formalCharge⟩ line_sep

/-! ## IQ# protocol client (`iqsharp.py`) -/

/-- The `content` field of a Jupyter message, restricted to the keys the
client reads: `name` and `text` (stream messages) and the MIME-keyed
`data` map (result messages). -/
structure MsgContent where
  name : String
  text : String
  data : List (String × String)
deriving DecidableEq

/-- A Jupyter protocol message as seen by `output_hook`. -/
structure Msg where
  msg_type : String
  content : MsgContent
deriving DecidableEq

/-- Errors raised by the client layer.
`iqsharpError` is `IQSharpError` (the spec's `RemoteExecutionError`),
carrying the accumulated stderr texts.
`protocolViolation` is the failure of `assert len(results) == 1`
(a Python `AssertionError`; the spec names it `ProtocolViolationError`).
`nameError` is a Python `NameError` on an undefined identifier. -/
inductive ExecError where
  | iqsharpError (iqsharp_errors : List String)
  | protocolViolation
  | nameError (name : String)
deriving DecidableEq

/-- Human-readable message built by `IQSharpError.__init__`: a banner line,
then `writelines` of the captured texts each prefixed by four spaces
(`writelines` inserts no separators). -/
def iqsharpErrorMessage (errs : List String) : String :=
  "The Q# kernel raised the following errors:\n" ++
    String.join (errs.map fun msg => "    " ++ msg)

/-- Value returned by a successful `execute`: `simple` is the bare decoded
object (or `None`), `full` is the `(obj, content)` pair returned when
`return_full_result` is set and a result message arrived. -/
inductive ExecValue (α : Type) where
  | simple (obj : Option α)
  | full (obj : Option α) (content : MsgContent)
deriving DecidableEq

/-- The `output_hook` closure of `execute`, run over the whole response
stream: collect `execute_result` messages into `results` and, when
`raise_on_stderr` is set, stderr stream texts into `errors`; every other
message goes to the default passthrough handler. -/
def collectEvents (raise_on_stderr : Bool) : List Msg → List Msg × List String
  | [] => ([], [])
  | m :: ms =>
    let rest := collectEvents raise_on_stderr ms
    if m.msg_type = "execute_result" then (m :: rest.1, rest.2)
    else if raise_on_stderr ∧ m.msg_type = "stream" ∧ m.content.name = "stderr" then
      (rest.1, m.content.text :: rest.2)
    else rest

set_option linter.unusedVariables false in
/-- `IQSharpClient.execute`.  The response stream produced by the kernel
for the transmitted command is the explicit `stream` argument; `decode`
stands for `unmap_tuples ∘ json.loads` (defined in `qsharp/serialization.py`,
not among the provided sources). -/
def execute (input : String) (return_full_result raise_on_stderr : Bool)
    (decode : String → α) (stream : List Msg) : Except ExecError (ExecValue α) :=
  let results := (collectEvents raise_on_stderr stream).1
  let errors := (collectEvents raise_on_stderr stream).2
  if errors = [] then
    match results with
    | [] => .ok (.simple none)
    | [r] =>
      let obj := (r.content.data.lookup "application/json").map decode
      .ok (if return_full_result then .full obj r.content else .simple obj)
    | _ :: _ :: _ => .error .protocolViolation
  else .error (.iqsharpError errors)

/-- Evaluation of the bare name `False1` appearing in
`IQSharpClient.get_packages` (`iqsharp.py` line 94): the name is not
defined anywhere, so Python raises `NameError` when the argument
expression is evaluated. -/
def pyNameFalse1 : Except ExecError Bool :=
  .error (.nameError "False1")

/-- `IQSharpClient.get_packages`:
`return self.execute("%package", raise_on_stderr=False1)`.  The argument
expression `False1` is evaluated before `execute` is entered. -/
def get_packages (decode : String → α) (stream : List Msg) :
    Except ExecError (ExecValue α) :=
  match pyNameFalse1 with
  | .error e => .error e
  | .ok flag => execute "%package" false flag decode stream

/-! ## OpenMolcas input-deck formatter (`openmolcas.py`, `util.py`)

Python warnings (`warnings.warn`) are embedded as an explicit list of
emitted warning texts returned alongside the result. -/

/-- `GEOMETRY_LINE_SEP` of `openmolcas.py`. -/
def GEOMETRY_LINE_SEP : String := "\n  "

/-- The `geometry` parameter of `create_input_deck` /
`formatted_geometry_str`: `Union[str, Geometry]`. -/
inductive GeomArg where
  | str (s : String)
  | geom (g : Geometry)
deriving DecidableEq

/-- Warning text emitted by `formatted_geometry_str` when an explicit
geometry is supplied. -/
def ignoringMolWarning : String :=
  "Ignoring mol and using specified geometry string instead."

/-- `formatted_geometry_str` of `util.py`: derive the geometry text from
the molecule when no geometry is given; otherwise warn, and format the
`Geometry` (or use the string as is). -/
def formatted_geometry_str (mol : Mol) (geometry : Option GeomArg)
    (line_sep : String) : String × List String :=
  match geometry with
  | none => (format_geometry_from_mol mol line_sep, [])
  | some (.str s) => (s, [ignoringMolWarning])
  | some (.geom g) => (format_geometry g line_sep, [ignoringMolWarning])

/-- Modelled from the spec: `formatted_num_active_el` is imported from
`qdk_chemistry.solvers.util` but its definition is not among the provided
sources; per spec §4.3 the CASSCF branch "computes default active-electron
count from the molecule if not supplied". -/
def formatted_num_active_el (mol : Mol) (num_active_el : Option Int) : Int :=
  match num_active_el with
  | some v => v
  | none => Int.ofNat mol.numElectrons

/-- `OPENMOLCAS_TEMPLATE` of `openmolcas.py` with the nine fields
substituted (`str.format` renders each field with `str(...)`; the string
fields are passed through unchanged). -/
def openmolcas_template (num_atoms mol_name geometry basis symmetry
    integral_keyword charge spin rasscf_section : String) : String :=
  "\n&GATEWAY\nCoord\n  " ++ num_atoms ++ "\n  " ++ mol_name ++ "\n  " ++
    geometry ++ "\nBasis=" ++ basis ++ "\nGroup=" ++ symmetry ++
    "\n\n&SEWARD\n" ++ integral_keyword ++ "\n\n&SCF\nCharge=" ++ charge ++
    "\nSpin=" ++ spin ++ "\n" ++ rasscf_section ++ "\n"

/-- `OPENMOLCAS_TEMPLATE_CASSCF` of `openmolcas.py` with its four fields
substituted. -/
def openmolcas_template_casscf (charge num_active_el num_active_orbitals
    nroot : String) : String :=
  "\n&RASSCF\n  Charge= " ++ charge ++ "\n  Nactel  =  " ++ num_active_el ++
    "\n  Ras2  =  " ++ num_active_orbitals ++ "\n  Ciroot  =  " ++ nroot ++
    " " ++ nroot ++ " 1\n"

/-- `OPEN_MOLCAS_TEMPLATE_FCIDUMP` of `openmolcas.py` with its two fields
substituted. -/
def open_molcas_template_fcidump (spin charge : String) : String :=
  "\n&RASSCF\n  DMRG\n  FCIDUMP\n  TYPEINDEX\n  Spin=" ++ spin ++
    "\n  Charge=" ++ charge ++
    "\n\n  RGINPUT\n  nsweeps = 5\n  max_bond_dimension = 500\n  ENDRG\n"

/-- ASCII uppercase of one character (Python `str.upper` acts
character-wise; the deck formatter only ever compares against the ASCII
word `CASSCF`). -/
def toUpperChar (c : Char) : Char :=
  if 'a' ≤ c ∧ c ≤ 'z' then Char.ofNat (c.toNat - 32) else c

/-- Python `method.upper()` on ASCII text. -/
def pyUpper (s : String) : String :=
  String.mk (s.data.map toUpperChar)

/-- `num_atoms = len(geometry) if isinstance(geometry, Geometry) else
num_atoms_from_mol(mol)`. -/
def resolved_num_atoms (geometry : Option GeomArg) (mol : Mol) : Nat :=
  match geometry with
  | some (.geom g) => g.elems.length
  | _ => num_atoms_from_mol mol

/-- `charge = charge if charge is not None else GetFormalCharge(mol)`. -/
def resolved_charge (charge : Option Int) (mol : Mol) : Int :=
  match charge with
  | some c => c
  | none => mol.formalCharge

/-- The `rasscf_section` branch of `create_input_deck`: CASSCF template
when the method is (case-insensitively) CASSCF and the Broombridge flag is
unset; otherwise the FCIDUMP template when the flag is set; otherwise
empty. -/
def rasscf_section_for (mol : Mol) (charge : Int) (spin : String)
    (method : String) (get_broombridge : Bool) (num_active_el : Option Int)
    (num_active_orbitals : Int) (ci_root : Int) : String :=
  if pyUpper method = "CASSCF" ∧ get_broombridge = false then
    openmolcas_template_casscf (toString charge)
      (toString (formatted_num_active_el mol num_active_el))
      (toString num_active_orbitals) (toString ci_root)
  else if get_broombridge = true then
    open_molcas_template_fcidump spin (toString charge)
  else ""

/-- `create_input_deck` of `openmolcas.py`; returns the deck text and the
warnings emitted while building it. -/
def create_input_deck (mol : Mol) (mol_name : String)
    (geometry : Option GeomArg) (charge : Option Int) (spin basis symmetry
    integral_keyword : String) (method : String) (get_broombridge : Bool)
    (num_active_el : Option Int) (num_active_orbitals : Int)
    (ci_root : Int) : String × List String :=
  let fg := formatted_geometry_str mol geometry GEOMETRY_LINE_SEP
  let num_atoms := resolved_num_atoms geometry mol
  let ch := resolved_charge charge mol
  let rasscf_section := rasscf_section_for mol ch spin method get_broombridge
    num_active_el num_active_orbitals ci_root
  (openmolcas_template (toString num_atoms) mol_name fg.1 basis symmetry
    integral_keyword (toString ch) spin rasscf_section, fg.2)

/-! ## Predicates used to state the claims -/

/-- `e` is an initial segment of `l`. -/
def listStarts : List Char → List Char → Bool
  | [], _ => true
  | _ :: _, [] => false
  | a :: as, b :: bs => a = b && listStarts as bs

/-- `e` occurs as a contiguous run inside `l` (substring of a line). -/
def infixCheck (e l : List Char) : Bool :=
  (List.range (l.length + 1)).any fun i => listStarts e (l.drop i)

/-- "Every captured error line appears, in the order received, each on its
own line": the error texts can be matched, in order, to distinct lines of
the message, each error a substring of its line. -/
def eachOnItsOwnLine : List (List Char) → List (List Char) → Bool
  | [], _ => true
  | _ :: _, [] => false
  | e :: es, l :: ls =>
    (infixCheck e l && eachOnItsOwnLine es ls) || eachOnItsOwnLine (e :: es) ls

/-- The lines of a string (split at newline characters). -/
def linesOf (s : String) : List (List Char) :=
  s.toList.splitOn '\n'

/-! ## Concrete values used by witnesses and counterexamples -/

/-- The literal `0.0`. -/
def pf00 : PyFloat := ⟨false, ['0'], ['0']⟩

/-- The literal `0.74`. -/
def pf74 : PyFloat := ⟨false, ['0'], ['7', '4']⟩

/-- The spec's concrete XYZ scenario (§8). -/
def exampleXyz : List Char := "2\ntitle\nH 0.0 0.0 0.0\nH 0.0 0.0 0.74\n".toList

/-- The geometry parsed from `exampleXyz`. -/
def exampleGeom : Geometry :=
  ⟨[⟨['H'], pf00, pf00, pf00⟩, ⟨['H'], pf00, pf00, pf74⟩], none⟩

/-- A stderr stream message with the given text. -/
def stderrMsg (t : String) : Msg := ⟨"stream", ⟨"stderr", t, []⟩⟩

/-- An `execute_result` message with the given MIME data map. -/
def resultMsg (d : List (String × String)) : Msg := ⟨"execute_result", ⟨"", "", d⟩⟩

/-- A one-atom XYZ document whose single coordinate line starts with the
given element symbol: declared count 1, a one-character title, then
`<sym> <f1> <f2> <f3>`. -/
def oneAtomDoc (sym : List Char) (f1 f2 f3 : PyFloat) : List Char :=
  '1' :: '\n' :: 't' :: '\n' ::
    (sym ++ ' ' :: printFloat f1 ++ ' ' :: printFloat f2 ++ ' ' :: printFloat f3 ++ ['\n'])

/-- Molecule used in the `create_input_deck` counterexample: formal
charge 7. -/
def cMol : Mol := ⟨[], 7, 0⟩

/-- Explicit geometry used in the `create_input_deck` counterexample: one
atom, charge 2. -/
def cGeom : Geometry := ⟨[⟨['H'], pf00, pf00, pf00⟩], some 2⟩

/-! ## Character-class and list lemmas -/

theorem isPyWord_of_isPyDigit {c : Char} (h : isPyDigit c = true) : isPyWord c = true := by
  simp [isPyWord, h]

theorem ne_space_of_isPyWord {c : Char} (h : isPyWord c = true) : c ≠ ' ' := by
  intro hc
  subst hc
  simp [isPyWord, isPyDigit] at h

theorem takeWhile_all_append {p : Char → Bool} {l1 : List Char} (x : Char) (l2 : List Char)
    (h1 : ∀ c ∈ l1, p c = true) (h2 : p x = false) :
    (l1 ++ x :: l2).takeWhile p = l1 := by
  induction l1 with
  | nil => simp [List.takeWhile_cons, h2]
  | cons a l ih =>
    have ha : p a = true := h1 a (List.mem_cons_self a l)
    simp only [List.cons_append, List.takeWhile_cons, ha, if_true]
    rw [ih fun c hc => h1 c (List.mem_cons_of_mem a hc)]

theorem dropWhile_all_append {p : Char → Bool} {l1 : List Char} (x : Char) (l2 : List Char)
    (h1 : ∀ c ∈ l1, p c = true) (h2 : p x = false) :
    (l1 ++ x :: l2).dropWhile p = x :: l2 := by
  induction l1 with
  | nil => simp [List.dropWhile_cons, h2]
  | cons a l ih =>
    have ha : p a = true := h1 a (List.mem_cons_self a l)
    simp only [List.cons_append, List.dropWhile_cons, ha, if_true]
    exact ih fun c hc => h1 c (List.mem_cons_of_mem a hc)

/-! ## Decimal printing lemmas -/

theorem natToDigitsFuel_eq : ∀ f1 f2 n, n ≤ f1 → n ≤ f2 →
    natToDigitsFuel f1 n = natToDigitsFuel f2 n := by
  intro f1
  induction f1 with
  | zero =>
    intro f2 n h1 _
    interval_cases n
    cases f2 <;> simp [natToDigitsFuel]
  | succ f ih =>
    intro f2 n h1 h2
    by_cases hn : n < 10
    · cases f2 with
      | zero => simp [natToDigitsFuel, hn]
      | succ f2p => simp [natToDigitsFuel, hn]
    · have h10 : 10 ≤ n := Nat.le_of_not_lt hn
      obtain ⟨f2p, rfl⟩ : ∃ m, f2 = m + 1 := ⟨f2 - 1, by omega⟩
      have hd : n / 10 ≤ f := by
        have := Nat.div_le_self n 10
        have : n / 10 < n := Nat.div_lt_self (by omega) (by omega)
        omega
      have hd2 : n / 10 ≤ f2p := by
        have : n / 10 < n := Nat.div_lt_self (by omega) (by omega)
        omega
      simp only [natToDigitsFuel, if_neg hn]
      rw [ih f2p (n / 10) hd hd2]

theorem natToDigits_unfold (n : Nat) :
    natToDigits n = if n < 10 then [Nat.digitChar n]
      else natToDigits (n / 10) ++ [Nat.digitChar (n % 10)] := by
  by_cases hn : n < 10
  · rw [if_pos hn]
    unfold natToDigits
    cases n with
    | zero => rfl
    | succ m => simp [natToDigitsFuel, hn]
  · have h10 : 10 ≤ n := Nat.le_of_not_lt hn
    obtain ⟨m, rfl⟩ : ∃ m, n = m + 1 := ⟨n - 1, by omega⟩
    unfold natToDigits
    simp only [natToDigitsFuel, if_neg hn]
    have hlt : (m + 1) / 10 ≤ m := by
      have : (m + 1) / 10 < m + 1 := Nat.div_lt_self (by omega) (by omega)
      omega
    rw [natToDigitsFuel_eq m ((m + 1) / 10) ((m + 1) / 10) hlt (Nat.le_refl _)]

theorem digitChar_isPyDigit : ∀ d, d < 10 → isPyDigit (Nat.digitChar d) = true := by
  decide

theorem digitChar_toNat : ∀ d, d < 10 → (Nat.digitChar d).toNat - 48 = d := by
  decide

theorem natToDigits_all_digit (n : Nat) : ∀ c ∈ natToDigits n, isPyDigit c = true := by
  induction n using Nat.strong_induction_on with
  | _ n ih =>
    rw [natToDigits_unfold]
    by_cases hn : n < 10
    · simp only [if_pos hn, List.mem_singleton]
      rintro c rfl
      exact digitChar_isPyDigit n hn
    · simp only [if_neg hn, List.mem_append, List.mem_singleton]
      rintro c (hc | rfl)
      · exact ih (n / 10) (Nat.div_lt_self (by omega) (by omega)) c hc
      · exact digitChar_isPyDigit (n % 10) (Nat.mod_lt n (by omega))

theorem natToDigits_ne_nil (n : Nat) : natToDigits n ≠ [] := by
  rw [natToDigits_unfold]
  by_cases hn : n < 10 <;> simp [hn]

theorem digitsToNat_append_singleton (l : List Char) (c : Char) :
    digitsToNat (l ++ [c]) = 10 * digitsToNat l + (c.toNat - 48) := by
  simp [digitsToNat, List.foldl_append]

theorem digitsToNat_natToDigits (n : Nat) : digitsToNat (natToDigits n) = n := by
  induction n using Nat.strong_induction_on with
  | _ n ih =>
    rw [natToDigits_unfold]
    by_cases hn : n < 10
    · simp only [if_pos hn]
      show 10 * 0 + ((Nat.digitChar n).toNat - 48) = n
      rw [digitChar_toNat n hn]
      omega
    · simp only [if_neg hn]
      rw [digitsToNat_append_singleton,
        ih (n / 10) (Nat.div_lt_self (by omega) (by omega)),
        digitChar_toNat (n % 10) (Nat.mod_lt n (by omega))]
      omega

theorem all_takeWhile (p : Char → Bool) (l : List Char) :
    ∀ c ∈ l.takeWhile p, p c = true := by
  induction l with
  | nil => simp
  | cons a l ih =>
    rw [List.takeWhile_cons]
    by_cases ha : p a
    · simp only [if_pos ha, List.mem_cons]
      rintro c (rfl | hc)
      · exact ha
      · exact ih c hc
    · simp [ha]

/-! ## Float matcher lemmas -/

theorem matchFloatBody_length {neg : Bool} {s r : List Char} {f : PyFloat}
    (h : matchFloatBody neg s = some (f, r)) : r.length ≤ s.length := by
  unfold matchFloatBody at h
  by_cases h1 : (s.dropWhile isPyDigit).head? = some '.'
  · rw [if_pos h1] at h
    by_cases he : (s.dropWhile isPyDigit).tail.takeWhile isPyDigit = []
    · rw [if_pos he] at h; exact absurd h (by simp)
    · rw [if_neg he] at h
      have hr : r = (s.dropWhile isPyDigit).tail.dropWhile isPyDigit := by
        have := Option.some.inj h
        exact (congrArg Prod.snd this).symm
      subst hr
      have h2 : ((s.dropWhile isPyDigit).tail.dropWhile isPyDigit).length ≤
          (s.dropWhile isPyDigit).tail.length := (List.dropWhile_sublist isPyDigit).length_le
      have h3 : (s.dropWhile isPyDigit).tail.length = (s.dropWhile isPyDigit).length - 1 :=
        List.length_tail _
      have h4 : (s.dropWhile isPyDigit).length ≤ s.length :=
        (List.dropWhile_sublist isPyDigit).length_le
      omega
  · rw [if_neg h1] at h; exact absurd h (by simp)

theorem matchFloat_length {s r : List Char} {f : PyFloat}
    (h : matchFloat s = some (f, r)) : r.length ≤ s.length := by
  have htail : s.tail.length = s.length - 1 := List.length_tail _
  unfold matchFloat at h
  by_cases h1 : s.head? = some '+'
  · rw [if_pos h1] at h
    have := matchFloatBody_length h
    omega
  · rw [if_neg h1] at h
    by_cases h2 : s.head? = some '-'
    · rw [if_pos h2] at h
      have := matchFloatBody_length h
      omega
    · rw [if_neg h2] at h
      exact matchFloatBody_length h

theorem matchFloatBody_wf {neg : Bool} {s r : List Char} {f : PyFloat}
    (h : matchFloatBody neg s = some (f, r)) : f.wfB = true := by
  unfold matchFloatBody at h
  by_cases h1 : (s.dropWhile isPyDigit).head? = some '.'
  · rw [if_pos h1] at h
    by_cases he : (s.dropWhile isPyDigit).tail.takeWhile isPyDigit = []
    · rw [if_pos he] at h; exact absurd h (by simp)
    · rw [if_neg he] at h
      have hf : f = ⟨neg, s.takeWhile isPyDigit,
          (s.dropWhile isPyDigit).tail.takeWhile isPyDigit⟩ :=
        (congrArg Prod.fst (Option.some.inj h)).symm
      subst hf
      simp only [PyFloat.wfB, Bool.and_eq_true, List.all_eq_true]
      refine ⟨⟨fun c hc => all_takeWhile _ _ c hc, ?_⟩, fun c hc => all_takeWhile _ _ c hc⟩
      simpa [List.isEmpty_iff] using he
  · rw [if_neg h1] at h; exact absurd h (by simp)

theorem matchFloat_wf {s r : List Char} {f : PyFloat}
    (h : matchFloat s = some (f, r)) : f.wfB = true := by
  unfold matchFloat at h
  by_cases h1 : s.head? = some '+'
  · rw [if_pos h1] at h; exact matchFloatBody_wf h
  · rw [if_neg h1] at h
    by_cases h2 : s.head? = some '-'
    · rw [if_pos h2] at h; exact matchFloatBody_wf h
    · rw [if_neg h2] at h; exact matchFloatBody_wf h

theorem matchFloatBody_print {neg : Bool} {ip fp : List Char} (c : Char) (rest : List Char)
    (hip : ∀ x ∈ ip, isPyDigit x = true) (hfp : ∀ x ∈ fp, isPyDigit x = true)
    (hne : fp ≠ []) (hc : isPyDigit c = false) :
    matchFloatBody neg (ip ++ '.' :: (fp ++ c :: rest)) = some (⟨neg, ip, fp⟩, c :: rest) := by
  have hdot : isPyDigit '.' = false := by decide
  have hfpne : fp.takeWhile isPyDigit ≠ [] := by
    rw [List.takeWhile_eq_self_iff.mpr hfp]
    exact hne
  unfold matchFloatBody
  rw [dropWhile_all_append '.' (fp ++ c :: rest) hip hdot]
  rw [takeWhile_all_append '.' (fp ++ c :: rest) hip hdot]
  simp only [List.head?_cons, List.tail_cons, if_pos rfl]
  rw [takeWhile_all_append c rest hfp hc, dropWhile_all_append c rest hfp hc]
  simp [hne]

theorem matchFloat_not_sign {s : List Char}
    (hhead : ∀ a, s.head? = some a → a ≠ '+' ∧ a ≠ '-') :
    matchFloat s = matchFloatBody false s := by
  unfold matchFloat
  cases hh : s.head? with
  | none => simp
  | some a =>
    obtain ⟨h1, h2⟩ := hhead a hh
    rw [if_neg (by simp [h1]), if_neg (by simp [h2])]

theorem matchFloat_print {f : PyFloat} (hf : f.wfB = true) (c : Char) (rest : List Char)
    (hc : isPyDigit c = false) :
    matchFloat (printFloat f ++ c :: rest) = some (f, c :: rest) := by
  obtain ⟨neg, ip, fp⟩ := f
  simp only [PyFloat.wfB, Bool.and_eq_true, List.all_eq_true] at hf
  obtain ⟨⟨hip, hne⟩, hfp⟩ := hf
  have hne2 : fp ≠ [] := by simpa [List.isEmpty_iff] using hne
  cases neg with
  | true =>
    have heq : printFloat ⟨true, ip, fp⟩ ++ c :: rest = '-' :: (ip ++ '.' :: (fp ++ c :: rest)) := by
      simp [printFloat]
    rw [heq]
    unfold matchFloat
    rw [if_neg (by simp), if_pos (by simp)]
    simp only [List.tail_cons]
    exact matchFloatBody_print c rest hip hfp hne2 hc
  | false =>
    have heq : printFloat ⟨false, ip, fp⟩ ++ c :: rest = ip ++ '.' :: (fp ++ c :: rest) := by
      simp [printFloat]
    rw [heq]
    rw [matchFloat_not_sign]
    · exact matchFloatBody_print c rest hip hfp hne2 hc
    · intro a ha
      cases ip with
      | nil =>
        simp at ha
        subst ha
        exact ⟨by decide, by decide⟩
      | cons b l =>
        simp at ha
        subst ha
        have hb := hip b (by simp)
        constructor
        · intro hcon; rw [hcon] at hb; exact absurd hb (by decide)
        · intro hcon; rw [hcon] at hb; exact absurd hb (by decide)

/-! ## XYZ line matcher lemmas -/

theorem expectChar_cons_self (c : Char) (t : List Char) :
    expectChar c (c :: t) = some t := by
  simp [expectChar]

theorem expectChar_some {c : Char} {s r : List Char} (h : expectChar c s = some r) :
    s.head? = some c ∧ r = s.tail ∧ r.length < s.length := by
  unfold expectChar at h
  by_cases hh : s.head? = some c
  · rw [if_pos hh] at h
    refine ⟨hh, (Option.some.inj h).symm, ?_⟩
    cases s with
    | nil => simp at hh
    | cons a t =>
      have := Option.some.inj h
      simp [← this]
  · rw [if_neg hh] at h
    exact absurd h (by simp)

theorem Element.wfB_name {e : Element} (h : e.wfB = true) :
    ∃ w, e.name = [w] ∧ isPyWord w = true := by
  obtain ⟨nm, fx, fy, fz⟩ := e
  simp only [Element.wfB, Bool.and_eq_true] at h
  obtain ⟨⟨⟨hn, _⟩, _⟩, _⟩ := h
  cases nm with
  | nil => exact absurd hn (by simp)
  | cons w t =>
    cases t with
    | nil => exact ⟨w, rfl, hn⟩
    | cons b u => exact absurd hn (by simp)

theorem matchXYZat_none_notWord {c : Char} (h : isPyWord c = false) (cs : List Char) :
    matchXYZat (c :: cs) = none := by
  simp [matchXYZat, h]

theorem matchXYZat_none_noSpace {c : Char} {cs : List Char}
    (h : cs.head? ≠ some ' ') : matchXYZat (c :: cs) = none := by
  have he : expectChar ' ' cs = none := by
    unfold expectChar
    rw [if_neg h]
  by_cases hw : isPyWord c
  · simp [matchXYZat, hw, he]
  · simp [matchXYZat, hw]

theorem matchXYZat_some {s r : List Char} {e : Element}
    (h : matchXYZat s = some (e, r)) :
    e.wfB = true ∧ r.length + 1 < s.length := by
  simp only [matchXYZat, Option.bind_eq_bind, Option.bind_eq_some] at h
  obtain ⟨w, hw, h⟩ := h
  by_cases hword : isPyWord w
  · rw [if_pos hword] at h
    simp only [Option.bind_eq_bind, Option.bind_eq_some] at h
    obtain ⟨r1, hr1, h⟩ := h
    obtain ⟨⟨f1, r2⟩, hf1, h⟩ := h
    obtain ⟨r3, hr3, h⟩ := h
    obtain ⟨⟨f2, r4⟩, hf2, h⟩ := h
    obtain ⟨r5, hr5, h⟩ := h
    obtain ⟨⟨f3, r6⟩, hf3, h⟩ := h
    have hpure : e = ⟨[w], f1, f2, f3⟩ ∧ r = r6 := by
      have := Option.some.inj h
      exact ⟨(congrArg Prod.fst this).symm, (congrArg Prod.snd this).symm⟩
    obtain ⟨he, hr⟩ := hpure
    subst he
    subst hr
    constructor
    · simp only [Element.wfB, Bool.and_eq_true]
      exact ⟨⟨⟨hword, matchFloat_wf hf1⟩, matchFloat_wf hf2⟩, matchFloat_wf hf3⟩
    · obtain ⟨_, hr1t, hl1⟩ := expectChar_some hr1
      obtain ⟨_, hr3t, hl3⟩ := expectChar_some hr3
      obtain ⟨_, hr5t, hl5⟩ := expectChar_some hr5
      have hm1 := matchFloat_length hf1
      have hm2 := matchFloat_length hf2
      have hm3 := matchFloat_length hf3
      have hst : s.tail.length < s.length := by
        cases s with
        | nil => simp at hw
        | cons a t => simp
      dsimp only at *
      omega
  · rw [if_neg hword] at h
    exact absurd h (by simp)

theorem matchXYZat_length {c : Char} {cs r : List Char} {e : Element}
    (h : matchXYZat (c :: cs) = some (e, r)) : r.length ≤ cs.length := by
  have := (matchXYZat_some h).2
  simp at this
  omega

theorem matchXYZat_wf {s r : List Char} {e : Element}
    (h : matchXYZat s = some (e, r)) : e.wfB = true :=
  (matchXYZat_some h).1

theorem matchXYZat_elementLine {e : Element} (hwf : e.wfB = true) {c : Char}
    (hc : isPyDigit c = false) (rest : List Char) :
    matchXYZat (elementLine e ++ c :: rest) = some (e, c :: rest) := by
  obtain ⟨w, hn, hword⟩ := Element.wfB_name hwf
  obtain ⟨nm, fx, fy, fz⟩ := e
  simp only at hn
  subst hn
  simp only [Element.wfB, Bool.and_eq_true] at hwf
  obtain ⟨⟨⟨_, hfx⟩, hfy⟩, hfz⟩ := hwf
  have h1 : matchFloat (printFloat fx ++ ' ' :: (printFloat fy ++ ' ' :: (printFloat fz ++ c :: rest)))
      = some (fx, ' ' :: (printFloat fy ++ ' ' :: (printFloat fz ++ c :: rest))) :=
    matchFloat_print hfx ' ' _ (by decide)
  have h2 : matchFloat (printFloat fy ++ ' ' :: (printFloat fz ++ c :: rest))
      = some (fy, ' ' :: (printFloat fz ++ c :: rest)) :=
    matchFloat_print hfy ' ' _ (by decide)
  have h3 : matchFloat (printFloat fz ++ c :: rest) = some (fz, c :: rest) :=
    matchFloat_print hfz c rest hc
  have hL : elementLine ⟨[w], fx, fy, fz⟩ ++ c :: rest =
      w :: (' ' :: (printFloat fx ++ ' ' :: (printFloat fy ++ ' ' :: (printFloat fz ++ c :: rest)))) := by
    simp [elementLine]
  rw [hL]
  simp [matchXYZat, hword, expectChar_cons_self, h1, h2, h3]

/-! ## `findall` lemmas -/

theorem findallFuel_eq : ∀ f1 f2 s, s.length ≤ f1 → s.length ≤ f2 →
    findallFuel f1 s = findallFuel f2 s := by
  intro f1
  induction f1 with
  | zero =>
    intro f2 s h1 _
    have : s = [] := List.length_eq_zero.mp (Nat.le_zero.mp h1)
    subst this
    cases f2 <;> simp [findallFuel]
  | succ f ih =>
    intro f2 s h1 h2
    cases s with
    | nil => cases f2 <;> simp [findallFuel]
    | cons c cs =>
      simp only [List.length_cons] at h1 h2
      obtain ⟨f2p, rfl⟩ : ∃ m, f2 = m + 1 := ⟨f2 - 1, by omega⟩
      simp only [findallFuel]
      cases hm : matchXYZat (c :: cs) with
      | none =>
        simp only [Option.elim]
        exact ih f2p cs (by omega) (by omega)
      | some er =>
        obtain ⟨e, r⟩ := er
        have hr := matchXYZat_length hm
        simp only [Option.elim]
        rw [ih f2p r (by omega) (by omega)]

theorem findall_nil : findall [] = [] := rfl

theorem findall_cons_none {c : Char} {cs : List Char}
    (h : matchXYZat (c :: cs) = none) : findall (c :: cs) = findall cs := by
  show findallFuel (c :: cs).length (c :: cs) = findall cs
  simp only [List.length_cons, findallFuel, h, Option.elim]
  rfl

theorem findall_cons_some {c : Char} {cs r : List Char} {e : Element}
    (h : matchXYZat (c :: cs) = some (e, r)) : findall (c :: cs) = e :: findall r := by
  show findallFuel (c :: cs).length (c :: cs) = e :: findall r
  simp only [List.length_cons, findallFuel, h, Option.elim]
  rw [findallFuel_eq cs.length r.length r (matchXYZat_length h) (Nat.le_refl _)]
  rfl

theorem findallFuel_wf : ∀ fuel s e, e ∈ findallFuel fuel s → e.wfB = true := by
  intro fuel
  induction fuel with
  | zero => intro s e h; simp [findallFuel] at h
  | succ f ih =>
    intro s e h
    cases s with
    | nil => simp [findallFuel] at h
    | cons c cs =>
      simp only [findallFuel] at h
      cases hm : matchXYZat (c :: cs) with
      | none =>
        rw [hm] at h
        simp only [Option.elim] at h
        exact ih cs e h
      | some er =>
        obtain ⟨e2, r⟩ := er
        rw [hm] at h
        simp only [Option.elim, List.mem_cons] at h
        rcases h with rfl | h
        · exact matchXYZat_wf hm
        · exact ih r e h

theorem findall_wf {s : List Char} {e : Element} (h : e ∈ findall s) : e.wfB = true :=
  findallFuel_wf s.length s e h

theorem findall_skip (l : List Char) (hl : ∀ x ∈ l, isPyWord x = true)
    {c : Char} (hc : c ≠ ' ') (rest : List Char) :
    findall (l ++ c :: rest) = findall (c :: rest) := by
  induction l with
  | nil => rfl
  | cons a t ih =>
    have hhead : (t ++ c :: rest).head? ≠ some ' ' := by
      cases t with
      | nil =>
        simp only [List.nil_append, List.head?_cons]
        intro hcon
        exact hc (Option.some.inj hcon)
      | cons b u =>
        simp only [List.cons_append, List.head?_cons]
        intro hcon
        have hb := hl b (by simp)
        exact ne_space_of_isPyWord hb (Option.some.inj hcon)
    rw [List.cons_append, findall_cons_none (matchXYZat_none_noSpace hhead)]
    exact ih fun x hx => hl x (List.mem_cons_of_mem a hx)

theorem findall_elementLine {e : Element} (hwf : e.wfB = true) {c : Char}
    (hc : isPyDigit c = false) (rest : List Char) :
    findall (elementLine e ++ c :: rest) = e :: findall (c :: rest) := by
  obtain ⟨w, hn, hword⟩ := Element.wfB_name hwf
  have hm := matchXYZat_elementLine hwf hc rest
  have hL : elementLine e = w :: (' ' :: (printFloat e.x ++ ' ' ::
      (printFloat e.y ++ ' ' :: printFloat e.z))) := by
    simp [elementLine, hn]
  rw [hL] at hm ⊢
  simp only [List.cons_append] at hm ⊢
  rw [findall_cons_some hm]

theorem findall_printed (elems : List Element) (h : ∀ e ∈ elems, e.wfB = true) :
    findall ((elems.map fun e => elementLine e ++ ['\n']).flatten) = elems := by
  induction elems with
  | nil => rfl
  | cons e es ih =>
    have hwf : e.wfB = true := h e (by simp)
    have hnl : isPyDigit '\n' = false := by decide
    have hassoc : ((e :: es).map fun x => elementLine x ++ ['\n']).flatten =
        elementLine e ++ '\n' :: ((es.map fun x => elementLine x ++ ['\n']).flatten) := by
      simp
    rw [hassoc, findall_elementLine hwf hnl,
      findall_cons_none (matchXYZat_none_notWord (by decide) _)]
    exact congrArg (e :: ·) (ih fun x hx => h x (List.mem_cons_of_mem e hx))

/-! ## Atom-count matcher lemmas -/

theorem isPyDigit_not_space {c : Char} (h : isPyDigit c = true) : isPySpace c = false := by
  simp only [isPyDigit, Bool.and_eq_true, decide_eq_true_eq] at h
  obtain ⟨h1, h2⟩ := h
  simp only [isPySpace, Bool.or_eq_false_iff, decide_eq_false_iff_not]
  refine ⟨⟨⟨⟨⟨?_, ?_⟩, ?_⟩, ?_⟩, ?_⟩, ?_⟩ <;> rintro rfl <;> revert h1 h2 <;> decide

theorem hasWsThenNewline_mem {l : List Char} (h : hasWsThenNewline l = true) : '\n' ∈ l := by
  induction l with
  | nil => simp [hasWsThenNewline] at h
  | cons c cs ih =>
    simp only [hasWsThenNewline, Bool.or_eq_true, Bool.and_eq_true, decide_eq_true_eq] at h
    rcases h with rfl | ⟨_, h⟩
    · exact List.mem_cons_self _ _
    · exact List.mem_cons_of_mem c (ih h)

theorem matchNumAtoms_newline {s : List Char} {n : Nat}
    (h : matchNumAtoms s = some n) : '\n' ∈ s := by
  unfold matchNumAtoms at h
  by_cases h1 : (s.dropWhile isPySpace).takeWhile isPyDigit = []
  · rw [if_pos h1] at h; exact absurd h (by simp)
  · rw [if_neg h1] at h
    by_cases h2 : hasWsThenNewline ((s.dropWhile isPySpace).dropWhile isPyDigit) = true
    · have hmem := hasWsThenNewline_mem h2
      have hsub : List.Sublist ((s.dropWhile isPySpace).dropWhile isPyDigit) s :=
        List.Sublist.trans (List.dropWhile_sublist isPyDigit) (List.dropWhile_sublist isPySpace)
      exact hsub.mem hmem
    · rw [if_neg h2] at h; exact absurd h (by simp)

theorem matchNumAtoms_print (n : Nat) (rest : List Char) :
    matchNumAtoms (natToDigits n ++ '\n' :: rest) = some n := by
  have hall := natToDigits_all_digit n
  obtain ⟨d, ds, hd⟩ := List.exists_cons_of_ne_nil (natToDigits_ne_nil n)
  have hnlD : isPyDigit '\n' = false := by decide
  simp only [matchNumAtoms]
  have h1 : (natToDigits n ++ '\n' :: rest).dropWhile isPySpace =
      natToDigits n ++ '\n' :: rest := by
    rw [hd, List.cons_append, List.dropWhile_cons,
      if_neg (by rw [isPyDigit_not_space (hall d (hd ▸ List.mem_cons_self d ds))]; simp)]
  rw [h1, takeWhile_all_append '\n' rest hall hnlD,
    dropWhile_all_append '\n' rest hall hnlD]
  rw [if_neg (natToDigits_ne_nil n)]
  have h2 : hasWsThenNewline ('\n' :: rest) = true := by
    simp [hasWsThenNewline]
  rw [if_pos h2, digitsToNat_natToDigits]

/-! ## `from_xyz` and round-trip lemmas -/

theorem from_xyz_ok {t : List Char} {g : Geometry} (h : from_xyz t = .ok g) :
    g.charge = none ∧ ∀ e ∈ g.elems, e.wfB = true := by
  unfold from_xyz at h
  by_cases hnl : '\n' ∈ t
  · rw [if_pos hnl] at h
    cases hm : matchNumAtoms t with
    | none => rw [hm] at h; simp only [Option.elim] at h; exact absurd h (by simp)
    | some n =>
      rw [hm] at h
      simp only [Option.elim] at h
      by_cases hlen : (findall t).length = n
      · rw [if_pos hlen] at h
        have hg : g = ⟨findall t, none⟩ := (Except.ok.inj h).symm
        subst hg
        exact ⟨rfl, fun e he => findall_wf he⟩
      · rw [if_neg hlen] at h; exact absurd h (by simp)
  · rw [if_neg hnl] at h
    have hg : g = ⟨[], none⟩ := (Except.ok.inj h).symm
    subst hg
    exact ⟨rfl, by simp⟩

theorem findall_to_xyz (g : Geometry) (hwf : ∀ e ∈ g.elems, e.wfB = true) :
    findall (to_xyz g ("unnamed".toList)) = g.elems := by
  have hword : ∀ x ∈ natToDigits g.elems.length, isPyWord x = true :=
    fun x hx => isPyWord_of_isPyDigit (natToDigits_all_digit _ x hx)
  have htitle : ∀ x ∈ ("unnamed".toList), isPyWord x = true := by decide
  have hsp : ('\n' : Char) ≠ ' ' := by decide
  unfold to_xyz
  rw [findall_skip (natToDigits g.elems.length) hword hsp,
    findall_cons_none (matchXYZat_none_notWord (by decide) _),
    findall_skip ("unnamed".toList) htitle hsp,
    findall_cons_none (matchXYZat_none_notWord (by decide) _)]
  exact findall_printed g.elems hwf

theorem from_xyz_charge {t : List Char} {g : Geometry} (h : from_xyz t = .ok g) :
    g.charge = none :=
  (from_xyz_ok h).1

theorem from_xyz_to_xyz (g : Geometry) (hwf : ∀ e ∈ g.elems, e.wfB = true)
    (hch : g.charge = none) :
    from_xyz (to_xyz g ("unnamed".toList)) = .ok g := by
  have hnl : '\n' ∈ to_xyz g ("unnamed".toList) := by
    unfold to_xyz
    simp
  have hnum : matchNumAtoms (to_xyz g ("unnamed".toList)) = some g.elems.length := by
    unfold to_xyz
    exact matchNumAtoms_print g.elems.length _
  have hfind := findall_to_xyz g hwf
  unfold from_xyz
  rw [if_pos hnl, hnum]
  simp only [Option.elim]
  rw [hfind, if_pos rfl]
  obtain ⟨elems, charge⟩ := g
  simp only at hch
  subst hch
  rfl

/-! ## Protocol client lemmas -/

theorem collectEvents_fst (b : Bool) (s : List Msg) :
    (collectEvents b s).1 = s.filter fun m => m.msg_type == "execute_result" := by
  induction s with
  | nil => rfl
  | cons m ms ih =>
    simp only [collectEvents, List.filter_cons]
    by_cases h1 : m.msg_type = "execute_result"
    · simp [h1, ih]
    · by_cases h2 : b = true ∧ m.msg_type = "stream" ∧ m.content.name = "stderr"
      · obtain ⟨rfl, h2a, h2b⟩ := h2
        simp [h1, h2a, h2b, ih]
      · simp [h1, h2, ih]

theorem collectEvents_snd_true (s : List Msg) :
    (collectEvents true s).2 =
      (s.filter fun m => m.msg_type == "stream" && m.content.name == "stderr").map
        fun m => m.content.text := by
  induction s with
  | nil => rfl
  | cons m ms ih =>
    have hne : ("execute_result" : String) ≠ "stream" := by decide
    simp only [collectEvents, List.filter_cons]
    by_cases h1 : m.msg_type = "execute_result"
    · have : (m.msg_type == "stream") = false := by
        rw [h1]
        decide
      simp [h1, this, ih]
    · by_cases h2 : m.msg_type = "stream" ∧ m.content.name = "stderr"
      · simp [h1, h2.1, h2.2, ih]
      · have hb : (m.msg_type == "stream" && m.content.name == "stderr") = false := by
          rcases Decidable.not_and_iff_or_not.mp h2 with h | h <;> simp [h]
        simp [h1, h2, hb, ih]

theorem collectEvents_snd_false (s : List Msg) : (collectEvents false s).2 = [] := by
  induction s with
  | nil => rfl
  | cons m ms ih =>
    simp only [collectEvents]
    by_cases h1 : m.msg_type = "execute_result"
    · simp [h1, ih]
    · simp [h1, ih]

theorem collectEvents_snd_empty (b : Bool) (s : List Msg)
    (h : s.filter (fun m => m.msg_type == "stream" && m.content.name == "stderr") = []) :
    (collectEvents b s).2 = [] := by
  cases b with
  | false => exact collectEvents_snd_false s
  | true => rw [collectEvents_snd_true, h]; rfl

/-! ## One-atom document helper -/

theorem matchNumAtoms_one (rest : List Char) :
    matchNumAtoms ('1' :: '\n' :: rest) = some 1 := by
  have h1 : isPySpace '1' = false := by decide
  have h2 : isPyDigit '1' = true := by decide
  have h3 : isPyDigit '\n' = false := by decide
  have h4 : digitsToNat ['1'] = 1 := by decide
  simp only [matchNumAtoms, List.dropWhile_cons, List.takeWhile_cons, h1, h2, h3,
    Bool.false_eq_true, if_false, if_true]
  simp [hasWsThenNewline, h4]

/-! ## OpenMolcas template lemmas -/

theorem casscf_section_char11 (c1 n1 o1 r1 : String) :
    (openmolcas_template_casscf c1 n1 o1 r1).data[11]? = some 'C' := by
  have h : openmolcas_template_casscf c1 n1 o1 r1 =
      "\n&RASSCF\n  Charge= " ++ (c1 ++ ("\n  Nactel  =  " ++ (n1 ++ ("\n  Ras2  =  " ++
        (o1 ++ ("\n  Ciroot  =  " ++ (r1 ++ (" " ++ (r1 ++ " 1\n"))))))))) := by
    unfold openmolcas_template_casscf
    simp [String.append_assoc]
  rw [h, String.data_append]
  rw [List.getElem?_append_left (by decide)]
  decide

theorem fcidump_section_char11 (s2 c2 : String) :
    (open_molcas_template_fcidump s2 c2).data[11]? = some 'D' := by
  have h : open_molcas_template_fcidump s2 c2 =
      "\n&RASSCF\n  DMRG\n  FCIDUMP\n  TYPEINDEX\n  Spin=" ++ (s2 ++ ("\n  Charge=" ++
        (c2 ++ "\n\n  RGINPUT\n  nsweeps = 5\n  max_bond_dimension = 500\n  ENDRG\n"))) := by
    unfold open_molcas_template_fcidump
    simp [String.append_assoc]
  rw [h, String.data_append]
  rw [List.getElem?_append_left (by decide)]
  decide

theorem casscf_section_ne_fcidump (c1 n1 o1 r1 s2 c2 : String) :
    openmolcas_template_casscf c1 n1 o1 r1 ≠ open_molcas_template_fcidump s2 c2 := by
  intro hcon
  have h := congrArg (fun s => s.data[11]?) hcon
  simp only [casscf_section_char11, fcidump_section_char11] at h
  exact absurd (Option.some.inj h) (by decide)

theorem casscf_section_ne_empty (c1 n1 o1 r1 : String) :
    openmolcas_template_casscf c1 n1 o1 r1 ≠ "" := by
  intro hcon
  have h := congrArg (fun s => s.data[11]?) hcon
  simp only [casscf_section_char11] at h
  exact absurd h (by decide)

theorem fcidump_section_ne_empty (s2 c2 : String) :
    open_molcas_template_fcidump s2 c2 ≠ "" := by
  intro hcon
  have h := congrArg (fun s => s.data[11]?) hcon
  simp only [fcidump_section_char11] at h
  exact absurd h (by decide)

/-! ## Claim theorems -/

/-- C5: for every XYZ text whose declared atom count `n` differs from the
number of coordinate lines that parse as `<element> <float> <float> <float>`,
`from_xyz` fails with the format error (the `assert` in the source, the
spec's `FormatError`), surfaced to the caller. -/
theorem from_xyz_count_mismatch_format_error (t : List Char) (n : Nat)
    (hn : matchNumAtoms t = some n) (hm : (findall t).length ≠ n) :
    from_xyz t = .error .formatError := by
  have hnl : '\n' ∈ t := matchNumAtoms_newline hn
  unfold from_xyz
  rw [if_pos hnl, hn]
  simp only [Option.elim]
  rw [if_neg hm]

theorem from_xyz_count_mismatch_format_error_witness :
    matchNumAtoms ("3\ntitle\nH 0.0 0.0 0.0\n".toList) = some 3 ∧
    (findall ("3\ntitle\nH 0.0 0.0 0.0\n".toList)).length ≠ 3 ∧
    from_xyz ("3\ntitle\nH 0.0 0.0 0.0\n".toList) = .error .formatError :=
  ⟨rfl, by decide,
    from_xyz_count_mismatch_format_error ("3\ntitle\nH 0.0 0.0 0.0\n".toList) 3 rfl (by decide)⟩

/-- C6: for every input containing no newline character, `from_xyz` returns
an empty geometry (zero atoms, no charge) and does not raise. -/
theorem from_xyz_no_newline_empty (t : List Char) (h : '\n' ∉ t) :
    from_xyz t = .ok ⟨[], none⟩ := by
  unfold from_xyz
  rw [if_neg h]

theorem from_xyz_no_newline_empty_witness :
    '\n' ∉ ("   ".toList) ∧ from_xyz ("   ".toList) = .ok ⟨[], none⟩ :=
  ⟨by decide, from_xyz_no_newline_empty ("   ".toList) (by decide)⟩

/-- C7: XYZ round trip.  For every text `t` that `from_xyz` parses
successfully, re-serializing with `to_xyz` (default title) and re-parsing
returns the same geometry, so the coordinate sequence of
`from_xyz (to_xyz (from_xyz t))` equals the coordinate sequence of
`from_xyz t` — every atom's name and x, y, z values are preserved in
order. -/
theorem from_xyz_to_xyz_roundtrip (t : List Char) (g : Geometry)
    (h : from_xyz t = .ok g) :
    from_xyz (to_xyz g ("unnamed".toList)) = .ok g ∧
    (from_xyz (to_xyz g ("unnamed".toList))).map Geometry.coordinates =
      (from_xyz t).map Geometry.coordinates := by
  obtain ⟨hch, hwf⟩ := from_xyz_ok h
  have hrt := from_xyz_to_xyz g hwf hch
  exact ⟨hrt, by rw [hrt, h]⟩

theorem from_xyz_to_xyz_roundtrip_witness :
    from_xyz exampleXyz = .ok exampleGeom ∧
    from_xyz (to_xyz exampleGeom ("unnamed".toList)) = .ok exampleGeom :=
  ⟨rfl, (from_xyz_to_xyz_roundtrip exampleXyz exampleGeom rfl).1⟩

/-- C10: the `(\w)` group of `XYZ_PATTERN` captures exactly one word
character, so a coordinate line whose element symbol has two or more
characters parses with only the final character as the element name; and
every geometry returned by `from_xyz` has charge `None`. -/
theorem from_xyz_single_char_name_and_charge_none :
    (∀ (init : List Char) (c : Char) (f1 f2 f3 : PyFloat),
      init ≠ [] → (∀ x ∈ init ++ [c], isPyWord x = true) →
      f1.wfB = true → f2.wfB = true → f3.wfB = true →
      from_xyz (oneAtomDoc (init ++ [c]) f1 f2 f3) = .ok ⟨[⟨[c], f1, f2, f3⟩], none⟩) ∧
    (∀ (t : List Char) (g : Geometry), from_xyz t = .ok g → g.charge = none) := by
  constructor
  · intro init c f1 f2 f3 hne hword h1 h2 h3
    have hcword : isPyWord c = true := hword c (by simp)
    have hiword : ∀ x ∈ init, isPyWord x = true := fun x hx => hword x (by simp [hx])
    have hwfe : (⟨[c], f1, f2, f3⟩ : Element).wfB = true := by
      simp only [Element.wfB, Bool.and_eq_true]
      exact ⟨⟨⟨hcword, h1⟩, h2⟩, h3⟩
    have hdoc : oneAtomDoc (init ++ [c]) f1 f2 f3 =
        '1' :: '\n' :: 't' :: '\n' ::
          (init ++ (elementLine ⟨[c], f1, f2, f3⟩ ++ '\n' :: ([] : List Char))) := by
      simp [oneAtomDoc, elementLine]
    have hfind : findall (oneAtomDoc (init ++ [c]) f1 f2 f3) = [⟨[c], f1, f2, f3⟩] := by
      rw [hdoc]
      have hh1 : (('\n' :: 't' :: '\n' ::
          (init ++ (elementLine ⟨[c], f1, f2, f3⟩ ++ '\n' :: ([] : List Char)))).head?) ≠
            some ' ' := by simp
      rw [findall_cons_none (matchXYZat_none_noSpace hh1),
        findall_cons_none (matchXYZat_none_notWord (by decide) _)]
      have hh2 : (('\n' :: (init ++ (elementLine ⟨[c], f1, f2, f3⟩ ++
          '\n' :: ([] : List Char)))).head?) ≠ some ' ' := by simp
      rw [findall_cons_none (matchXYZat_none_noSpace hh2),
        findall_cons_none (matchXYZat_none_notWord (by decide) _)]
      obtain ⟨w, hn, hword2⟩ := Element.wfB_name hwfe
      have hcw : c ≠ ' ' := ne_space_of_isPyWord hcword
      have hskip : init ++ (elementLine ⟨[c], f1, f2, f3⟩ ++ '\n' :: ([] : List Char)) =
          init ++ (c :: (' ' :: (printFloat f1 ++ ' ' ::
            (printFloat f2 ++ ' ' :: (printFloat f3 ++ '\n' :: ([] : List Char)))))) := by
        simp [elementLine]
      rw [hskip, findall_skip init hiword hcw]
      have hline : c :: (' ' :: (printFloat f1 ++ ' ' ::
          (printFloat f2 ++ ' ' :: (printFloat f3 ++ '\n' :: ([] : List Char))))) =
            elementLine ⟨[c], f1, f2, f3⟩ ++ '\n' :: ([] : List Char) := by
        simp [elementLine]
      rw [hline, findall_elementLine hwfe (by decide),
        findall_cons_none (matchXYZat_none_notWord (by decide) _), findall_nil]
    have hnum : matchNumAtoms (oneAtomDoc (init ++ [c]) f1 f2 f3) = some 1 :=
      matchNumAtoms_one _
    have hnl : '\n' ∈ oneAtomDoc (init ++ [c]) f1 f2 f3 := by
      simp [oneAtomDoc]
    unfold from_xyz
    rw [if_pos hnl, hnum]
    simp only [Option.elim]
    rw [hfind]
    rfl
  · intro t g h
    exact from_xyz_charge h

theorem from_xyz_single_char_name_and_charge_none_witness :
    from_xyz (oneAtomDoc ("He".toList) pf00 pf00 pf00) =
      .ok ⟨[⟨['e'], pf00, pf00, pf00⟩], none⟩ ∧
    (⟨[], none⟩ : Geometry).charge = none := by
  constructor
  · exact from_xyz_single_char_name_and_charge_none.1 ['H'] 'e' pf00 pf00 pf00
      (by decide) (by decide) (by decide) (by decide) (by decide)
  · exact from_xyz_single_char_name_and_charge_none.2 ("x".toList) ⟨[], none⟩ rfl

/-- C1 (amended): `execute` with `raise_on_stderr=True` that receives at
least one stderr stream event raises `IQSharpError` (the spec's
`RemoteExecutionError`) carrying the captured texts in order, and never
returns a value; the human-readable message is the banner line followed by
the captured texts in order, each prefixed with four spaces and
concatenated directly — `writelines` adds no separators, so each text sits
on its own line only when the preceding texts end with a newline. -/
theorem execute_stderr_raises_iqsharp_error (input : String) (full : Bool) {α : Type}
    (decode : String → α) (stream : List Msg)
    (h : stream.filter (fun m => m.msg_type == "stream" && m.content.name == "stderr") ≠ []) :
    execute input full true decode stream =
      .error (.iqsharpError ((stream.filter fun m =>
        m.msg_type == "stream" && m.content.name == "stderr").map fun m => m.content.text)) ∧
    iqsharpErrorMessage ((stream.filter fun m =>
        m.msg_type == "stream" && m.content.name == "stderr").map fun m => m.content.text) =
      "The Q# kernel raised the following errors:\n" ++
        String.join (((stream.filter fun m =>
          m.msg_type == "stream" && m.content.name == "stderr").map fun m =>
            m.content.text).map fun e => "    " ++ e) := by
  have hsnd := collectEvents_snd_true stream
  have hne : (collectEvents true stream).2 ≠ [] := by
    rw [hsnd]
    intro hcon
    exact h (List.map_eq_nil_iff.mp hcon)
  constructor
  · simp only [execute]
    rw [if_neg hne, hsnd]
  · rfl

theorem execute_stderr_raises_iqsharp_error_witness :
    ([stderrMsg "boom"].filter
      (fun m => m.msg_type == "stream" && m.content.name == "stderr") ≠ []) ∧
    execute "cmd" true true (fun s : String => s) [stderrMsg "boom"] =
      .error (.iqsharpError ["boom"]) :=
  ⟨by decide,
    (execute_stderr_raises_iqsharp_error "cmd" true (fun s : String => s)
      [stderrMsg "boom"] (by decide)).1⟩

/-- C1 counterexample: with captured stderr texts `"e1"` and `"e2"` the
raised error's message is
`"The Q# kernel raised the following errors:\n    e1    e2"`, whose lines
cannot host the two captured texts on distinct lines in order — the claim's
"each on its own line" fails. -/
theorem execute_stderr_lines_not_own_lines :
    execute "cmd" false true (fun s : String => s) [stderrMsg "e1", stderrMsg "e2"] =
      .error (.iqsharpError ["e1", "e2"]) ∧
    iqsharpErrorMessage ["e1", "e2"] =
      "The Q# kernel raised the following errors:\n    e1    e2" ∧
    eachOnItsOwnLine ["e1".toList, "e2".toList]
      (linesOf (iqsharpErrorMessage ["e1", "e2"])) = false :=
  ⟨rfl, rfl, by decide⟩

/-- C2: `execute` that receives two or more `execute_result` events for one
command, with no error accumulated, fails with the multiple-result
assertion failure (`assert len(results) == 1`, the spec's
`ProtocolViolationError`) and does not return either result. -/
theorem execute_two_results_protocol_violation (input : String) (full flag : Bool) {α : Type}
    (decode : String → α) (stream : List Msg)
    (hres : 2 ≤ (stream.filter fun m => m.msg_type == "execute_result").length)
    (herr : (collectEvents flag stream).2 = []) :
    execute input full flag decode stream = .error .protocolViolation := by
  have hfst := collectEvents_fst flag stream
  have hab : ∃ a b rest, (collectEvents flag stream).1 = a :: b :: rest := by
    rw [hfst]
    rcases hl : stream.filter fun m => m.msg_type == "execute_result" with _ | ⟨a, _ | ⟨b, rest⟩⟩
    · rw [hl] at hres; simp at hres
    · rw [hl] at hres; simp at hres
    · exact ⟨a, b, rest, hl⟩
  obtain ⟨a, b, rest, hab⟩ := hab
  simp only [execute]
  rw [if_pos herr, hab]

theorem execute_two_results_protocol_violation_witness :
    2 ≤ ([resultMsg [], resultMsg []].filter fun m => m.msg_type == "execute_result").length ∧
    (collectEvents false [resultMsg [], resultMsg []]).2 = [] ∧
    execute "c" false false (fun s : String => s) [resultMsg [], resultMsg []] =
      .error .protocolViolation :=
  ⟨by decide, by decide,
    execute_two_results_protocol_violation "c" false false (fun s : String => s)
      [resultMsg [], resultMsg []] (by decide) (by decide)⟩

/-- C3: `execute` (with `return_full_result` at its default `False`) that
receives exactly one result event and zero error-stream events returns the
payload found under the `application/json` key of the result's data map,
decoded by `unmap_tuples ∘ json.loads`, and nothing else — no exception,
no extra results; if that key is absent the structured result is `None`. -/
theorem execute_single_result_returns_payload (input : String) (flag : Bool) {α : Type}
    (decode : String → α) (stream : List Msg) (r : Msg)
    (hres : stream.filter (fun m => m.msg_type == "execute_result") = [r])
    (herr : stream.filter (fun m => m.msg_type == "stream" && m.content.name == "stderr") = []) :
    execute input false flag decode stream =
      .ok (.simple ((r.content.data.lookup "application/json").map decode)) := by
  have hfst := collectEvents_fst flag stream
  have hsnd := collectEvents_snd_empty flag stream herr
  simp only [execute]
  rw [if_pos hsnd, hfst, hres]
  rfl

theorem execute_single_result_returns_payload_witness :
    ([resultMsg [("application/json", "payload")]].filter
      (fun m => m.msg_type == "execute_result") = [resultMsg [("application/json", "payload")]]) ∧
    execute "c" false false (fun s : String => s)
      [resultMsg [("application/json", "payload")]] = .ok (.simple (some "payload")) :=
  ⟨by decide,
    execute_single_result_returns_payload "c" false (fun s : String => s)
      [resultMsg [("application/json", "payload")]]
      (resultMsg [("application/json", "payload")]) (by decide) (by decide)⟩

/-- C4 (code bug): `get_packages` is meant to issue the fixed command
`%package` through `execute` with error-stream escalation disabled, but the
source passes `raise_on_stderr=False1`; evaluating the undefined name
`False1` raises `NameError` before any command is sent, for every call in
every state. -/
theorem get_packages_raises_name_error {α : Type} (decode : String → α) (stream : List Msg) :
    get_packages decode stream = .error (.nameError "False1") := rfl

/-- C8: `create_input_deck` emits exactly one of three RASSCF-section
outcomes, chosen by this precedence: the CASSCF section when `method` is
case-insensitively `CASSCF` and `get_broombridge` is unset; otherwise the
FCIDUMP section when `get_broombridge` is set; otherwise no section (only
the GATEWAY/SEWARD/SCF header).  The CASSCF and FCIDUMP sections are
distinct from each other and from the empty section for every field
substitution, so the deck contains the selected section and not the
other. -/
theorem create_input_deck_rasscf_sections (mol : Mol) (mol_name : String)
    (geometry : Option GeomArg) (charge : Option Int)
    (spin basis symmetry ik method : String) (gb : Bool)
    (nael : Option Int) (nao cr : Int) :
    (create_input_deck mol mol_name geometry charge spin basis symmetry ik
        method gb nael nao cr).1 =
      openmolcas_template (toString (resolved_num_atoms geometry mol)) mol_name
        (formatted_geometry_str mol geometry GEOMETRY_LINE_SEP).1 basis symmetry ik
        (toString (resolved_charge charge mol)) spin
        (if pyUpper method = "CASSCF" ∧ gb = false then
          openmolcas_template_casscf (toString (resolved_charge charge mol))
            (toString (formatted_num_active_el mol nael)) (toString nao) (toString cr)
         else if gb = true then
          open_molcas_template_fcidump spin (toString (resolved_charge charge mol))
         else "") ∧
    (∀ c1 n1 o1 r1 s2 c2 : String,
      openmolcas_template_casscf c1 n1 o1 r1 ≠ open_molcas_template_fcidump s2 c2 ∧
      openmolcas_template_casscf c1 n1 o1 r1 ≠ "" ∧
      open_molcas_template_fcidump s2 c2 ≠ "") :=
  ⟨rfl, fun c1 n1 o1 r1 s2 c2 =>
    ⟨casscf_section_ne_fcidump c1 n1 o1 r1 s2 c2,
     casscf_section_ne_empty c1 n1 o1 r1,
     fcidump_section_ne_empty s2 c2⟩⟩

/-- C9 (amended): when an explicit `Geometry` is given together with a
molecule, the explicit geometry wins for the geometry string and the
"Ignoring mol" warning is emitted (non-fatal), and `num_atoms` is resolved
from the explicit `Geometry`; but `charge`, when not passed explicitly, is
always resolved from the molecule's formal charge — the explicit
geometry's own `charge` attribute is never consulted. -/
theorem create_input_deck_explicit_geometry (mol : Mol) (g : Geometry)
    (mol_name spin basis symmetry ik method : String) (gb : Bool)
    (nael : Option Int) (nao cr : Int) :
    create_input_deck mol mol_name (some (.geom g)) none spin basis symmetry ik
        method gb nael nao cr =
      (openmolcas_template (toString g.elems.length) mol_name
        (format_geometry g GEOMETRY_LINE_SEP) basis symmetry ik
        (toString mol.formalCharge) spin
        (rasscf_section_for mol mol.formalCharge spin method gb nael nao cr),
       [ignoringMolWarning]) := rfl

/-- C9 counterexample: with a molecule of formal charge 7 and an explicit
geometry whose own charge is 2 (and no explicit `charge` argument), the
deck is built with `Charge=7` from the molecule, not 2 from the geometry
actually used for the geometry string — and the two decks differ. -/
theorem create_input_deck_charge_counterexample :
    cGeom.charge = some 2 ∧
    create_input_deck cMol "" (some (.geom cGeom)) none "1" "B" "C1" "" "X" false none 0 1 =
      (openmolcas_template "1" "" (format_geometry cGeom GEOMETRY_LINE_SEP) "B" "C1" ""
        (toString (7 : Int)) "1" "", [ignoringMolWarning]) ∧
    openmolcas_template "1" "" (format_geometry cGeom GEOMETRY_LINE_SEP) "B" "C1" ""
        (toString (7 : Int)) "1" "" ≠
      openmolcas_template "1" "" (format_geometry cGeom GEOMETRY_LINE_SEP) "B" "C1" ""
        (toString (2 : Int)) "1" "" :=
  ⟨rfl, by decide, by decide⟩

end LibQuantum
